import Mathlib

/-!
# Verification of the keymash chord-encoding and dispatch engine

A shallow embedding of `src/lib/keymash.ts` (the core keyboard-shortcut
engine): the key-identity map (`getBitPos`, alias tables, the `hold`/`press`
mask tables), the 512-bit chord encoding, binding explosion and the lookup
registry, the live key-state tracker, the sequence detector, and the
keydown/keyup/blur dispatch loop.

Conventions of the embedding:
* JavaScript `bigint` chord values are `Nat` (all values are non-negative
  single-bit ORs below `2 ^ 512`).
* A JavaScript `Map<string, Binding>` is a `List (String × Binding)` where
  `set` conses at the front and `get` takes the first hit, which gives the
  same `get` semantics as the source's last-write-wins `Map.set`.
* Handlers are identified by numeric ids; their side effects on the owning
  instance are an environment `Nat → KeymashState → KeymashState` passed to
  the dispatch functions, and the fact that a handler was invoked (or
  `preventDefault` called, or the `onUpdate` visualizer callback notified)
  is recorded in an `Effect` list returned alongside the new state.
* The embedding models the production build: `isDev` is `false`, so
  `reportConflict` is a no-op and the development-mode duplicate checks in
  `_addBindings` and `sequence` do not alter state or throw.
* `Date.now()` is modelled by a `time` field carried on each event.
* Listener attachment/detachment and the process-wide target registry are
  external side effects with no bearing on the claims below and are not
  represented in the state.
-/

set_option maxRecDepth 40000

/-- ASCII-only lowercasing of a character. Models the effect of JavaScript
`String.prototype.toLowerCase` on the key names appearing in this
development (ASCII names, plus already-lowercase Latin-1 characters such as
'ÿ', which both operations leave unchanged). -/
def jsCharLower (c : Char) : Char :=
  if 65 ≤ c.toNat ∧ c.toNat ≤ 90 then Char.ofNat (c.toNat + 32) else c

/-- Models `String.prototype.toLowerCase` (see `jsCharLower`). -/
def jsToLower (s : String) : String :=
  String.mk (s.data.map jsCharLower)

/-- The entries of the static object `KEY_CODE_MAP` of `src/lib/keymash.ts`
(lines 44-59, distinct keys, distinct values). -/
def KEY_CODE_MAP_ENTRIES : List (String × Nat) :=
  [("ctrl", 1), ("shift", 2), ("alt", 3), ("meta", 4), ("capslock", 5), ("tab", 6),
   ("escape", 7), ("backspace", 8), ("enter", 9), (" ", 10),
   ("arrowup", 20), ("arrowdown", 21), ("arrowleft", 22), ("arrowright", 23)]

/-- The property names every plain JavaScript object inherits from
`Object.prototype`: indexing an object literal with one of these names
yields the inherited function (or, for `__proto__`, the prototype object)
— a truthy non-number — rather than `undefined`. -/
def isObjectProtoMember (k : String) : Bool :=
  k == "constructor" || k == "hasOwnProperty" || k == "isPrototypeOf" ||
  k == "propertyIsEnumerable" || k == "toLocaleString" || k == "toString" ||
  k == "valueOf" || k == "__proto__" || k == "__defineGetter__" ||
  k == "__defineSetter__" || k == "__lookupGetter__" || k == "__lookupSetter__"

/-- The result of a JavaScript property access `obj[k]` on an object
literal holding numeric values: an own numeric entry, a truthy non-number
inherited from `Object.prototype`, or `undefined`. -/
inductive JsLookup where
  | num (n : Nat)
  | inherited
  | undefined
deriving Repr, DecidableEq

/-- Property lookup `KEY_CODE_MAP[k]`, prototype chain included: an own
entry shadows the prototype (no literal key collides with a prototype
member name); otherwise an `Object.prototype` member name yields the
inherited truthy non-number.  All own values are nonzero, so the source's
truthiness test `if (KEY_CODE_MAP[normalized])` passes exactly for `num`
and `inherited` results. -/
def KEY_CODE_MAP (k : String) : JsLookup :=
  match KEY_CODE_MAP_ENTRIES.find? (fun p => p.1 == k) with
  | some p => JsLookup.num p.2
  | none => if isObjectProtoMember k then JsLookup.inherited else JsLookup.undefined

/-- Models `getBitPos` of `src/lib/keymash.ts` (lines 79-84).  Single-character
names are lowercased, then `KEY_CODE_MAP[normalized]` is consulted;
unmapped single characters fall back to their character code and unmapped
multi-character names to `(firstCharCode % 100) + 128`.  The result is
`none` exactly when the source produces no numeric bit position: for an
`Object.prototype` member name such as "toString" the truthiness guard
passes on the inherited function and `getBitPos` returns that function,
and for the empty string it returns `"".charCodeAt(0) % 100 + 128 = NaN`;
in both cases every caller throws (in `BigInt(...)`) before mutating any
state. -/
def getBitPos (key : String) : Option Nat :=
  let normalized := if key.length = 1 then jsToLower key else key
  match KEY_CODE_MAP normalized with
  | JsLookup.num v => some v
  | JsLookup.inherited => none
  | JsLookup.undefined =>
    match normalized.data with
    | [] => none
    | c :: rest => if rest.isEmpty then some c.toNat else some (c.toNat % 100 + 128)

/-- Models `HOLD_RANGE_MASK` (line 88). -/
def HOLD_RANGE_MASK : Nat := 2 ^ 256 - 1

/-- Models `PRESS_RANGE_MASK` (line 89). -/
def PRESS_RANGE_MASK : Nat := (2 ^ 256 - 1) * 2 ^ 256

/-- Models `ANY_SENTINEL` (line 92): bit 255, reserved for catch-all bindings. -/
def ANY_SENTINEL : Nat := 2 ^ 255

/-- Models `ANY_HOLD` (line 93). -/
def ANY_HOLD : Nat := ANY_SENTINEL

/-- Models `ANY_PRESS` (line 94): the sentinel shifted into the press half. -/
def ANY_PRESS : Nat := ANY_SENTINEL * 2 ^ 256

/-- The alias table of `src/lib/keymash.ts` (lines 146-168), as a map from
alias name to the canonical registered name.  `register` (lines 170-181)
copies the canonical key's masks to each alias, so an alias's cached mask
uses the canonical name's bit position. -/
def aliasCanonical (k : String) : String :=
  if k = "num0" then "0" else if k = "num1" then "1"
  else if k = "num2" then "2" else if k = "num3" then "3"
  else if k = "num4" then "4" else if k = "num5" then "5"
  else if k = "num6" then "6" else if k = "num7" then "7"
  else if k = "num8" then "8" else if k = "num9" then "9"
  else if k = "windows" then "meta" else if k = "command" then "meta"
  else if k = "up" then "arrowup" else if k = "left" then "arrowleft"
  else if k = "right" then "arrowright" else if k = "down" then "arrowdown"
  else if k = "space" then " " else if k = "backtick" then "`"
  else if k = "dash" then "-" else if k = "equals" then "="
  else if k = "leftsquarebracket" then "[" else if k = "rightsquarebracket" then "]"
  else if k = "semicolon" then ";" else if k = "apostrophe" then "'"
  else if k = "comma" then "," else if k = "period" then "."
  else if k = "slash" then "/" else if k = "backslash" then "\\"
  else k

/-- The bit position a name resolves to through the populated `hold`/`press`
tables and `Keymash._getMask` (lines 705-710): the cached mask of a
registered name or alias is `1n << (getBitPos(canonical) + offset)`, the
initial literal entry `any` holds the sentinel bit 255, and an uncached
name is computed fresh from `getBitPos` (and memoized, which is
observationally identical).  For an `Object.prototype` member name (no
registered name or alias collides with one) the truthiness check
`if (cache[k])` passes on the inherited non-number and `_getMask` returns
it, so no numeric bit position exists: `none`. -/
def maskBitPos (k : String) : Option Nat :=
  if k = "any" then some 255
  else if isObjectProtoMember k then none
  else getBitPos (aliasCanonical k)

/-- The populated `hold` table (single-bit masks in the hold half). -/
def holdTable (k : String) : Nat :=
  match maskBitPos k with
  | some b => 2 ^ b
  | none => 0

/-- The populated `press` table (single-bit masks in the press half). -/
def pressTable (k : String) : Nat :=
  match maskBitPos k with
  | some b => 2 ^ (b + 256)
  | none => 0

/-- A `Binding` (see `src/types.ts` and lines 324-363): a chord, a handler
(identified here by a numeric id), and the optional `label`, `delay` and
`repeat` properties.  The source field `repeat` is a Lean keyword and is
called `repeatFlag` here. -/
structure Binding where
  combo : Nat
  handler : Nat
  label : Option String := none
  delay : Option Nat := none
  repeatFlag : Option Bool := none
deriving Repr, DecidableEq

/-- The internal `SequenceBinding` record (lines 393-397). -/
structure SequenceBinding where
  sequence : String
  handler : Nat
  id : Nat
deriving Repr, DecidableEq

/-- A keyboard event as seen by the dispatch handlers: the `key` name,
`Date.now()` at dispatch time, and whether `_shouldHandleEvent` accepts the
event for this instance (scope containment, lines 718-727). -/
structure KeyEvent where
  key : String
  time : Nat := 0
  inScope : Bool := true
deriving Repr, DecidableEq

/-- The mutable per-instance state of the `Keymash` class (lines 423-458).
Defaults mirror the constructor and field initializers. -/
structure KeymashState where
  active : Bool := false
  activeKeys : List String := []
  bindings : List Binding := []
  lookup : List (String × Binding) := []
  sequences : List SequenceBinding := []
  sequenceBuffer : String := ""
  sequenceIdCounter : Nat := 0
  lastKeyTime : Nat := 0
  sequenceTimeout : Nat := 1000
deriving Repr, DecidableEq

/-- The freshly constructed instance (`new Keymash({})`). -/
def initState : KeymashState := {}

/-- Externally observable actions of a dispatch cycle, in the order they
happen: `e.preventDefault()`, immediate handler invocation, a
`setTimeout`-scheduled delayed invocation, a sequence-handler invocation
with the matched text, and an `onUpdate` visualizer notification. -/
inductive Effect where
  | preventDefault
  | invoke (handler : Nat)
  | scheduleInvoke (handler : Nat) (delay : Nat)
  | seqInvoke (handler : Nat) (text : String)
  | update (mask : Nat)
deriving Repr, DecidableEq

/-- Models `Map.prototype.set` of the `_lookup` map: later writes shadow earlier
ones (`mapGet` takes the first hit from the front). -/
def mapSet (m : List (String × Binding)) (k : String) (v : Binding) : List (String × Binding) :=
  (k, v) :: m

/-- Models `Map.prototype.get` of the `_lookup` map. -/
def mapGet (m : List (String × Binding)) (k : String) : Option Binding :=
  (m.find? (fun p => p.1 == k)).map Prod.snd

/-- The `while (tempPress > 0n)` loop of `explodeBinding` (lines 334-342),
written with a structural fuel argument so that it evaluates by kernel
reduction.  The loop runs at most `log2 tempPress + 1 ≤ tempPress` times
(the counter at least halves each iteration), so `fuel = tempPress` in
`explodePress` makes `explodePressGo` extensionally the source loop. -/
def explodePressGo (b : Binding) (holdPart : Nat) :
    Nat → Nat → Nat → List (String × Binding)
  | _, 0, _ => []
  | 0, _ + 1, _ => []
  | fuel + 1, tempPress + 1, bitIndex =>
    (if (tempPress + 1) % 2 = 1 then
        [(toString (holdPart ||| 2 ^ (bitIndex + 256)), b)]
      else [])
      ++ explodePressGo b holdPart fuel ((tempPress + 1) / 2) (bitIndex + 1)

/-- Emit one lookup entry `(holdPart | (1n << (bitIndex + 256n))).toString()`
per set bit of the press half, scanning from the least significant bit
(see `explodePressGo`). -/
def explodePress (b : Binding) (holdPart : Nat) (tempPress : Nat) (bitIndex : Nat) :
    List (String × Binding) :=
  explodePressGo b holdPart tempPress tempPress bitIndex

/-- The hold half of a chord: `combo & HOLD_RANGE_MASK`. -/
def holdPartOf (combo : Nat) : Nat := combo &&& HOLD_RANGE_MASK

/-- The press half of a chord, shifted down:
`(combo & PRESS_RANGE_MASK) >> 256n`. -/
def pressPartOf (combo : Nat) : Nat := (combo &&& PRESS_RANGE_MASK) >>> 256

/-- Models `explodeBinding` (lines 324-349): the `registered` flag of the source is
equivalent to the loop having produced at least one entry. -/
def explodeBinding (b : Binding) : List (String × Binding) :=
  let results := explodePress b (holdPartOf b.combo) (pressPartOf b.combo) 0
  if results.isEmpty then [(toString b.combo, b)] else results

/-- Models `Keymash._addBindings` (lines 664-688), production behavior: push each
binding onto the `bindings` array and insert its exploded entries into the
lookup map (the development-mode duplicate check is a no-op). -/
def Keymash.addBindings (s : KeymashState) (bs : List Binding) : KeymashState :=
  bs.foldl
    (fun st b =>
      { st with
        bindings := st.bindings ++ [b]
        lookup := (explodeBinding b).foldl (fun m kb => mapSet m kb.1 kb.2) st.lookup })
    s

/-- Models `Keymash._rebuildLookup` (lines 690-697): clear and re-insert the
exploded entries of every remaining binding, in order. -/
def Keymash.rebuildLookup (bs : List Binding) : List (String × Binding) :=
  bs.foldl (fun m b => (explodeBinding b).foldl (fun m kb => mapSet m kb.1 kb.2) m) []

/-- Models `Keymash.unbind` (lines 503-513): drop every binding whose original
combo stringifies to one of the given combos, then rebuild the lookup. -/
def Keymash.unbind (s : KeymashState) (combos : List Nat) : KeymashState :=
  let comboStrings := combos.map toString
  let bindings := s.bindings.filter (fun b => !(comboStrings.contains (toString b.combo)))
  { s with bindings := bindings, lookup := Keymash.rebuildLookup bindings }

/-- Models `Keymash.setActive` (lines 520-539): a same-value call is a no-op;
deactivating clears the held-key set.  Listener attachment and the target
registry are external side effects not represented here. -/
def Keymash.setActive (s : KeymashState) (active : Bool) : KeymashState :=
  if s.active = active then s
  else if active then { s with active := true }
  else { s with active := false, activeKeys := [] }

/-- Models `Keymash.destroy` (lines 566-572): deactivate and clear the sequence
registrations and buffer. -/
def Keymash.destroy (s : KeymashState) : KeymashState :=
  let s1 := Keymash.setActive s false
  { s1 with sequences := [], sequenceBuffer := "" }

/-- Models `Keymash.sequence` (lines 582-627), production behavior: a fresh id,
the lowercased text appended to the registration list, and — when a
`timeout` option is given — the single instance-wide `_sequenceTimeout`
overwritten. -/
def Keymash.sequence (s : KeymashState) (text : String) (handler : Nat)
    (timeout? : Option Nat) : KeymashState :=
  let id := s.sequenceIdCounter + 1
  let q : SequenceBinding := { sequence := jsToLower text, handler := handler, id := id }
  let s1 := { s with sequenceIdCounter := id, sequences := s.sequences ++ [q] }
  match timeout? with
  | some t => { s1 with sequenceTimeout := t }
  | none => s1

/-- The unsubscribe closure returned by `Keymash.sequence` (lines 623-626). -/
def Keymash.unsubscribeSequence (s : KeymashState) (id : Nat) : KeymashState :=
  { s with sequences := s.sequences.filter (fun q => q.id != id) }

/-- Models `String.prototype.endsWith` on the character-list representation (the
built-in `String.endsWith` is byte-position based and does not evaluate by
kernel reduction). -/
def jsEndsWith (s suffix : String) : Bool :=
  suffix.data.isSuffixOf s.data

/-- Models `String.prototype.slice(-n)` for `n > 0`: the last `n` characters. -/
def jsSliceLast (s : String) (n : Nat) : String :=
  String.mk (s.data.drop (s.data.length - n))

/-- The buffer value `_checkSequences` (lines 632-651) computes before the
matching loop: reset if idle longer than the shared `_sequenceTimeout`,
append the lowercased key, trim to `max(50, longest sequence)` characters
from the tail. -/
def Keymash.bufferAfter (s : KeymashState) (key : String) (now : Nat) : String :=
  let buf0 := if now - s.lastKeyTime > s.sequenceTimeout then "" else s.sequenceBuffer
  let buf1 := buf0 ++ jsToLower key
  let maxLen := s.sequences.foldl (fun m q => max m q.sequence.length) 50
  if buf1.length > maxLen then jsSliceLast buf1 maxLen else buf1

/-- Models `Keymash._checkSequences` (lines 632-662): multi-character key names
return before touching any state; otherwise the buffer is updated and the
first registered sequence the buffer ends with fires — the buffer is reset
to empty before its handler runs, and the loop breaks. -/
def Keymash.checkSequences (senv : Nat → KeymashState → KeymashState) (s : KeymashState)
    (key : String) (now : Nat) : KeymashState × List Effect :=
  if key.length ≠ 1 then (s, [])
  else
    let buf2 := Keymash.bufferAfter s key now
    let s1 : KeymashState := { s with lastKeyTime := now }
    match s1.sequences.find? (fun q => jsEndsWith buf2 q.sequence) with
    | some q =>
      (senv q.handler { s1 with sequenceBuffer := "" }, [Effect.seqInvoke q.handler q.sequence])
    | none => ({ s1 with sequenceBuffer := buf2 }, [])

/-- The hold mask recomputed from the held-key set (lines 734-737), one
cached hold-half mask per held key name. -/
def holdMaskOf (keys : List String) : Nat :=
  keys.foldl (fun m k => m ||| holdTable k) 0

/-- The binding-resolution step of `_handleKeyDown` (lines 744-749): exact
lookup on the total mask first, then the catch-all `holdMask | ANY_PRESS`
fallback. -/
def Keymash.resolveBinding (lookup : List (String × Binding)) (holdMask totalMask : Nat) :
    Option Binding :=
  match mapGet lookup (toString totalMask) with
  | some b => some b
  | none => mapGet lookup (toString (holdMask ||| ANY_PRESS))

/-- Models `Set.prototype.add` on `_activeKeys`. -/
def Keymash.addActiveKey (s : KeymashState) (k : String) : KeymashState :=
  if s.activeKeys.contains k then s else { s with activeKeys := s.activeKeys ++ [k] }

/-- Models `Keymash._handleKeyDown` (lines 729-780).  `benv` gives each binding
handler's effect on the instance state, `senv` the same for sequence
handlers.  The `none` branch of `maskBitPos` models the exception a
non-numeric mask raises before any state is mutated: `BigInt(NaN)` for the
empty key name, and a `TypeError` from OR-ing the hold mask with the
inherited function `_getMask` returns for an `Object.prototype` member
name such as "toString".  The
final `addActiveKey` re-checks `_active`, which the invoked handler may
have cleared. -/
def Keymash.handleKeyDown (benv senv : Nat → KeymashState → KeymashState)
    (s : KeymashState) (e : KeyEvent) : KeymashState × List Effect :=
  if e.inScope = false then (s, [])
  else
    match maskBitPos e.key with
    | none => (s, [])
    | some pb =>
      let holdMask := holdMaskOf s.activeKeys
      let pressMask := 2 ^ (pb + 256)
      let totalMask := holdMask ||| pressMask
      let binding := Keymash.resolveBinding s.lookup holdMask totalMask
      let seqResult := Keymash.checkSequences senv s e.key e.time
      let s1 := seqResult.1
      let seqEffs := seqResult.2
      if s1.activeKeys.contains e.key then
        match binding with
        | some b =>
          if b.repeatFlag = some true then
            (benv b.handler s1, seqEffs ++ [Effect.preventDefault, Effect.invoke b.handler])
          else (s1, seqEffs)
        | none => (s1, seqEffs)
      else
        match binding with
        | some b =>
          if (b.delay.getD 0) > 0 then
            let s3 := if s1.active then Keymash.addActiveKey s1 e.key else s1
            (s3, seqEffs ++ [Effect.update totalMask, Effect.preventDefault,
                  Effect.scheduleInvoke b.handler (b.delay.getD 0)])
          else
            let s2 := benv b.handler s1
            let s3 := if s2.active then Keymash.addActiveKey s2 e.key else s2
            (s3, seqEffs ++ [Effect.update totalMask, Effect.preventDefault,
                  Effect.invoke b.handler])
        | none =>
          let s3 := if s1.active then Keymash.addActiveKey s1 e.key else s1
          (s3, seqEffs ++ [Effect.update totalMask])

/-- Models `Keymash._handleKeyUp` (lines 782-794). -/
def Keymash.handleKeyUp (s : KeymashState) (e : KeyEvent) : KeymashState × List Effect :=
  if e.inScope = false then (s, [])
  else
    let s1 := { s with activeKeys := s.activeKeys.filter (fun k => k != e.key) }
    (s1, [Effect.update (holdMaskOf s1.activeKeys)])

/-- Models `Keymash._handleBlur` (lines 796-800). -/
def Keymash.handleBlur (s : KeymashState) : KeymashState × List Effect :=
  ({ s with activeKeys := [], sequenceBuffer := "" }, [Effect.update 0])

/-- An effect that runs a handler now or schedules it (`binding.delay`). -/
def Effect.isFire : Effect → Bool
  | Effect.invoke _ => true
  | Effect.scheduleInvoke _ _ => true
  | _ => false

/-- How many binding handlers a dispatch cycle fired (or scheduled). -/
def countFires (effs : List Effect) : Nat := (effs.filter Effect.isFire).length

/-- A handler environment whose handlers do not touch the instance. -/
def idEnv : Nat → KeymashState → KeymashState := fun _ s => s

/-! ## Supporting lemmas -/

theorem toNat_jsCharLower_lt (c : Char) (h : c.toNat < 128) :
    (jsCharLower c).toNat < 128 := by
  unfold jsCharLower
  split_ifs with hc
  · have hv : (c.toNat + 32).isValidChar := Or.inl (by omega)
    rw [Char.ofNat, dif_pos hv]
    have heq : (Char.ofNatAux (c.toNat + 32) hv).toNat = c.toNat + 32 := by
      simp [Char.ofNatAux, Char.toNat, UInt32.toNat, BitVec.toNat_ofNatLt]
    omega
  · exact h

theorem KEY_CODE_MAP_bound (s : String) (v : Nat) (h : KEY_CODE_MAP s = JsLookup.num v) :
    0 < v ∧ v ≤ 23 := by
  unfold KEY_CODE_MAP at h
  rcases hf : KEY_CODE_MAP_ENTRIES.find? (fun p => p.1 == s) with _ | p
  · rw [hf] at h
    by_cases hp : isObjectProtoMember s = true
    · rw [if_pos hp] at h; cases h
    · rw [if_neg hp] at h; cases h
  · rw [hf] at h
    cases h
    have hm := List.mem_of_find?_eq_some hf
    simp only [KEY_CODE_MAP_ENTRIES] at hm
    simp only [List.mem_cons, List.not_mem_nil, or_false] at hm
    rcases hm with h | h | h | h | h | h | h | h | h | h | h | h | h | h <;> subst h <;> omega

theorem isObjectProtoMember_length (s : String) (h : isObjectProtoMember s = true) :
    7 ≤ s.data.length := by
  unfold isObjectProtoMember at h
  simp only [Bool.or_eq_true, beq_iff_eq] at h
  rcases h with ((((((((((h | h) | h) | h) | h) | h) | h) | h) | h) | h) | h) | h <;>
    subst h <;> decide

theorem KEY_CODE_MAP_inherited (s : String) (h : KEY_CODE_MAP s = JsLookup.inherited) :
    isObjectProtoMember s = true := by
  unfold KEY_CODE_MAP at h
  rcases hf : KEY_CODE_MAP_ENTRIES.find? (fun p => p.1 == s) with _ | p
  · rw [hf] at h
    by_cases hp : isObjectProtoMember s = true
    · exact hp
    · rw [if_neg hp] at h; cases h
  · rw [hf] at h; cases h

/-! ## C2 — totality and range of the bit-position function -/

/-- C2, counterexample: the claim says the bit-position function returns a
value in `[0, 256)` for every string and never 255.  On the code,
`getBitPos "ÿ"` (Latin-1 small y with diaeresis, character code 255)
returns 255, the reserved ANY-sentinel bit; `getBitPos "€"` (the euro
sign, character code 8364) returns 8364, outside `[0, 256)`; and
`getBitPos "toString"` returns no integer at all — the truthiness guard
passes on the inherited `Object.prototype.toString` function and returns
it. -/
theorem C2_range_counterexample :
    getBitPos "ÿ" = some 255 ∧ ANY_SENTINEL = 2 ^ 255 ∧
    getBitPos "€" = some 8364 ∧ ¬(8364 < 256) ∧
    getBitPos "toString" = none ∧ KEY_CODE_MAP "toString" = JsLookup.inherited :=
  ⟨by decide, by decide, by decide, by decide, by decide, by decide⟩

/-- C2, amended: for every nonempty name that is not one of the twelve
`Object.prototype` member names and whose first character is ASCII (code
below 128), `getBitPos` returns an integer in `[0, 256)` and never the
reserved sentinel position 255.  Outside that domain the claim fails:
non-ASCII single characters escape the range (`getBitPos "ÿ" = 255`, the
reserved sentinel; `getBitPos "€" = 8364`), a prototype member name such
as "toString" makes `getBitPos` return the inherited function instead of
an integer, and the empty string yields `NaN`. -/
theorem C2_range_amended (k : String) (c : Char) (cs : List Char)
    (hdata : k.data = c :: cs) (hascii : c.toNat < 128)
    (hproto : isObjectProtoMember k = false) :
    ∃ n, getBitPos k = some n ∧ n < 256 ∧ n ≠ 255 := by
  unfold getBitPos
  set normalized := if k.length = 1 then jsToLower k else k with hn
  have hnormproto : isObjectProtoMember normalized = false := by
    by_cases h1 : k.length = 1
    · rw [hn, if_pos h1]
      cases hb : isObjectProtoMember (jsToLower k)
      · rfl
      · exfalso
        have hlen7 := isObjectProtoMember_length _ hb
        have hlen1 : (jsToLower k).data.length = 1 := by
          show (k.data.map jsCharLower).length = 1
          rw [List.length_map]
          exact h1
        omega
    · rw [hn, if_neg h1]
      exact hproto
  rcases h : KEY_CODE_MAP normalized with v | _ | _
  case inherited =>
    exact absurd (KEY_CODE_MAP_inherited normalized h)
      (by rw [hnormproto]; exact Bool.false_ne_true)
  case num =>
    simp only [h]
    rcases KEY_CODE_MAP_bound normalized v h with ⟨h1, h2⟩
    exact ⟨v, rfl, by omega, by omega⟩
  case undefined =>
    simp only [h]
    have hlen : k.length = k.data.length := rfl
    by_cases h1 : k.length = 1
    · have hcs : cs = [] := by
        rw [hlen, hdata] at h1; simpa using h1
      subst hcs
      have hdat : normalized.data = [jsCharLower c] := by
        rw [hn, if_pos h1]
        simp [jsToLower, hdata]
      rw [hdat]
      have hlow := toNat_jsCharLower_lt c hascii
      exact ⟨(jsCharLower c).toNat, by simp, by omega, by omega⟩
    · have hdat : normalized.data = c :: cs := by
        rw [hn, if_neg h1, hdata]
      have hcs : cs ≠ [] := by
        intro hh
        rw [hh] at hdata
        rw [hlen, hdata] at h1
        simp at h1
      rw [hdat]
      have hrest : cs.isEmpty = false := by
        cases cs
        · simp at hcs
        · rfl
      have hmod : c.toNat % 100 < 100 := Nat.mod_lt _ (by omega)
      exact ⟨c.toNat % 100 + 128, by simp [hrest], by omega, by omega⟩

/-- Witness for `C2_range_amended` at the concrete key name "s". -/
theorem C2_range_amended_witness : ∃ n, getBitPos "s" = some n ∧ n < 256 ∧ n ≠ 255 :=
  C2_range_amended "s" 's' [] rfl (by decide) (by decide)

/-! ## C1 — browser key names vs. library aliases -/

/-- The binding `hold.ctrl + press.s -> handler 1` of the end-to-end
scenario. -/
def bindCtrlS : Binding := { combo := holdTable "ctrl" + pressTable "s", handler := 1 }

/-- The instance after `bind(hold.ctrl + press.s, handlerA)` and
`setActive(true)`. -/
def C1state : KeymashState :=
  Keymash.setActive (Keymash.addBindings initState [bindCtrlS]) true

/-- Dispatching `keydown "Control"` on `C1state`. -/
def C1afterControl : KeymashState × List Effect :=
  Keymash.handleKeyDown idEnv idEnv C1state { key := "Control" }

/-- Then dispatching `keydown "s"`. -/
def C1afterS : KeymashState × List Effect :=
  Keymash.handleKeyDown idEnv idEnv C1afterControl.1 { key := "s" }

/-- C1, evaluation at the failing input: the browser delivers
`KeyboardEvent.key = "Control"`, but `getBitPos` maps "Control" to bit 195
(the multi-character fallback hash) while the library name "ctrl" maps to
bit 1 — alias resolution does not unify them, because `KEY_CODE_MAP` and
the alias table only contain the lowercase short names.  Consequently, in
the end-to-end scenario the keydown of "s" computes a hold mask containing
bit 195 rather than bit 1, neither lookup succeeds, and the bound handler
is never invoked nor `preventDefault` called — the claim requires exactly
one invocation. -/
theorem C1_control_alias_eval :
    getBitPos "Control" = some 195 ∧ getBitPos "ctrl" = some 1 ∧
    countFires C1afterControl.2 = 0 ∧ countFires C1afterS.2 = 0 ∧
    Effect.preventDefault ∉ C1afterControl.2 ∧ Effect.preventDefault ∉ C1afterS.2 ∧
    C1afterS.1.activeKeys = ["Control", "s"] :=
  ⟨by decide, by decide, by decide, by decide, by decide, by decide, by decide⟩

/-! ## C3 — OR-explosion of bindings into the lookup map -/

/-- The indices of the set bits of a number, least significant first,
written with the same fuel pattern as `explodePressGo` (fuel `n` is ample
for `n`, see there). -/
def bitIndicesGo : Nat → Nat → Nat → List Nat
  | _, 0, _ => []
  | 0, _ + 1, _ => []
  | fuel + 1, t + 1, i =>
    (if (t + 1) % 2 = 1 then [i] else []) ++ bitIndicesGo fuel ((t + 1) / 2) (i + 1)

/-- The indices of the set bits of `n`, least significant first. -/
def bitIndices (n : Nat) : List Nat := bitIndicesGo n n 0

theorem explodePressGo_eq_map (b : Binding) (hp : Nat) :
    ∀ fuel t i, explodePressGo b hp fuel t i =
      (bitIndicesGo fuel t i).map (fun j => (toString (hp ||| 2 ^ (j + 256)), b)) := by
  intro fuel
  induction fuel with
  | zero => intro t i; cases t <;> rfl
  | succ n ih =>
    intro t i
    cases t with
    | zero => rfl
    | succ m =>
      by_cases h : (m + 1) % 2 = 1 <;>
        simp [explodePressGo, bitIndicesGo, h, ih]

theorem mem_bitIndicesGo :
    ∀ fuel t i x, t ≤ fuel → (x ∈ bitIndicesGo fuel t i ↔ ∃ d, x = i + d ∧ t.testBit d) := by
  intro fuel
  induction fuel with
  | zero =>
    intro t i x ht
    have : t = 0 := by omega
    subst this
    simp [bitIndicesGo, Nat.zero_testBit]
  | succ n ih =>
    intro t i x ht
    cases t with
    | zero => simp [bitIndicesGo, Nat.zero_testBit]
    | succ m =>
      have hle : (m + 1) / 2 ≤ n := by omega
      constructor
      · intro hx
        simp only [bitIndicesGo, List.mem_append] at hx
        rcases hx with hx | hx
        · by_cases h : (m + 1) % 2 = 1
          · rw [if_pos h] at hx
            simp at hx
            subst hx
            exact ⟨0, by omega, by simp [Nat.testBit_zero]; omega⟩
          · rw [if_neg h] at hx
            simp at hx
        · rcases (ih _ _ _ hle).1 hx with ⟨d, hd1, hd2⟩
          refine ⟨d + 1, by omega, ?_⟩
          rw [Nat.testBit_succ]
          exact hd2
      · rintro ⟨d, hd1, hd2⟩
        simp only [bitIndicesGo, List.mem_append]
        cases d with
        | zero =>
          left
          rw [Nat.testBit_zero] at hd2
          have : (m + 1) % 2 = 1 := by
            rcases Nat.mod_two_eq_zero_or_one (m + 1) with h | h
            · rw [h] at hd2; simp at hd2
            · exact h
          rw [if_pos this]
          simp; omega
        | succ d2 =>
          right
          rw [Nat.testBit_succ] at hd2
          exact (ih _ _ _ hle).2 ⟨d2, by omega, hd2⟩

theorem mem_bitIndices (n x : Nat) : x ∈ bitIndices n ↔ n.testBit x := by
  unfold bitIndices
  rw [mem_bitIndicesGo n n 0 x (Nat.le_refl n)]
  constructor
  · rintro ⟨d, h1, h2⟩
    have : x = d := by omega
    subst this
    exact h2
  · intro h
    exact ⟨x, by omega, h⟩

/-- Closed form of `explodeBinding`: one entry per set press bit, or the
raw combo if the press half is zero. -/
theorem explodeBinding_eq (b : Binding) :
    explodeBinding b =
      if (bitIndices (pressPartOf b.combo)).isEmpty then [(toString b.combo, b)]
      else (bitIndices (pressPartOf b.combo)).map
        (fun j => (toString (holdPartOf b.combo ||| 2 ^ (j + 256)), b)) := by
  have h1 : explodePress b (holdPartOf b.combo) (pressPartOf b.combo) 0 =
      (bitIndices (pressPartOf b.combo)).map
        (fun j => (toString (holdPartOf b.combo ||| 2 ^ (j + 256)), b)) := by
    unfold explodePress bitIndices
    exact explodePressGo_eq_map b (holdPartOf b.combo) (pressPartOf b.combo)
      (pressPartOf b.combo) 0
  unfold explodeBinding
  rw [h1]
  cases h : bitIndices (pressPartOf b.combo) <;> simp

/-- The binding `press.a | press.b -> handler 2` of the C3 scenario. -/
def bindAB : Binding := { combo := pressTable "a" ||| pressTable "b", handler := 2 }

/-- The instance after registering `bindAB`. -/
def C3state : KeymashState := Keymash.addBindings initState [bindAB]

/-- C3: a binding with `K ≥ 1` set press bits produces exactly `K` lookup
entries, one per set press bit `i`, keyed by
`(holdPart | (1 << (i + 256))).toString()`, and every entry carries the
original binding itself (`p.2 = b`, the very value that was registered —
no copy is made); a binding with `K = 0` press bits is inserted raw as a
single entry.  `bitIndices` enumerates precisely the set bits of the press
half.  Concretely, after registering `press.a | press.b`, looking up
`hold0 | press.a` and `hold0 | press.b` both return that binding, and
`hold0 | press.c` returns nothing. -/
theorem C3_explosion (b : Binding) :
    ((bitIndices (pressPartOf b.combo)).length ≥ 1 →
      (explodeBinding b).map Prod.fst =
        (bitIndices (pressPartOf b.combo)).map
          (fun i => toString (holdPartOf b.combo ||| 2 ^ (i + 256))) ∧
      (explodeBinding b).length = (bitIndices (pressPartOf b.combo)).length) ∧
    (∀ p ∈ explodeBinding b, p.2 = b) ∧
    ((bitIndices (pressPartOf b.combo)).length = 0 →
      explodeBinding b = [(toString b.combo, b)]) ∧
    (∀ i, i ∈ bitIndices (pressPartOf b.combo) ↔ (pressPartOf b.combo).testBit i) ∧
    mapGet C3state.lookup (toString (pressTable "a")) = some bindAB ∧
    mapGet C3state.lookup (toString (pressTable "b")) = some bindAB ∧
    mapGet C3state.lookup (toString (pressTable "c")) = none := by
  have he := explodeBinding_eq b
  refine ⟨?_, ?_, ?_, fun i => mem_bitIndices _ i, by decide, by decide, by decide⟩
  · intro hK
    have hne : (bitIndices (pressPartOf b.combo)).isEmpty = false := by
      cases h : bitIndices (pressPartOf b.combo)
      · rw [h] at hK; simp at hK
      · rfl
    rw [he, hne]
    simp
  · intro p hp
    rw [he] at hp
    by_cases hne : (bitIndices (pressPartOf b.combo)).isEmpty
    · rw [if_pos hne] at hp
      simp at hp
      subst hp
      rfl
    · rw [if_neg hne] at hp
      rcases List.mem_map.1 hp with ⟨i, hi, hpe⟩
      rw [← hpe]
  · intro hK
    have hne : (bitIndices (pressPartOf b.combo)).isEmpty = true := by
      cases h : bitIndices (pressPartOf b.combo)
      · rfl
      · rw [h] at hK; simp at hK
    rw [he, if_pos hne]

/-- Witness for `C3_explosion` at the two-bit binding `bindAB`. -/
theorem C3_explosion_witness :
    ((explodeBinding bindAB).map Prod.fst =
      (bitIndices (pressPartOf bindAB.combo)).map
        (fun i => toString (holdPartOf bindAB.combo ||| 2 ^ (i + 256)))) ∧
    mapGet C3state.lookup (toString (pressTable "a")) = some bindAB :=
  ⟨((C3_explosion bindAB).1 (by decide)).1, (C3_explosion bindAB).2.2.2.2.1⟩

/-! ## C4 — key-repeat semantics -/

/-- The binding `press.a -> handler 3` with `repeat: true`. -/
def bindRepeatA : Binding := { combo := pressTable "a", handler := 3, repeatFlag := some true }

/-- The instance after registering `bindRepeatA` and activating. -/
def C4state : KeymashState :=
  Keymash.setActive (Keymash.addBindings initState [bindRepeatA]) true

/-- The first `keydown "a"`. -/
def C4first : KeymashState × List Effect :=
  Keymash.handleKeyDown idEnv idEnv C4state { key := "a" }

/-- The OS-repeat `keydown "a"` (no intervening keyup). -/
def C4second : KeymashState × List Effect :=
  Keymash.handleKeyDown idEnv idEnv C4first.1 { key := "a" }

/-- C4, evaluation at the failing input: with `repeat: true` on
`press.a`, the first keydown of "a" fires the handler once and records
"a" as held, but the repeat keydown fires nothing — the claim (and the
repo's API documentation, "fire on every key repeat event") require it to
fire on every repeat.  The repeat dispatch recomputes the hold mask from
the held-key set, which now contains "a" itself, so the total mask gains
`hold.a` and neither the exact lookup nor the catch-all fallback resolves
(`resolveBinding` returns `none`), and the `binding?.repeat` branch never
runs a handler. -/
theorem C4_repeat_eval :
    bindRepeatA.repeatFlag = some true ∧
    countFires C4first.2 = 1 ∧ Effect.invoke 3 ∈ C4first.2 ∧
    C4first.1.activeKeys = ["a"] ∧
    countFires C4second.2 = 0 ∧
    Keymash.resolveBinding C4first.1.lookup (holdMaskOf C4first.1.activeKeys)
      (holdMaskOf C4first.1.activeKeys ||| pressTable "a") = none :=
  ⟨by decide, by decide, by decide, by decide, by decide, by decide⟩

/-! ## C5 — exact lookup before catch-all fallback -/

/-- The exact binding `press.a -> handler 11` of the C5 scenario. -/
def bindExactA : Binding := { combo := pressTable "a", handler := 11 }

/-- The catch-all binding `press.any -> handler 12` of the C5 scenario. -/
def bindCatchAll : Binding := { combo := pressTable "any", handler := 12 }

/-- The instance with both the exact and the catch-all binding, active. -/
def C5state : KeymashState :=
  Keymash.setActive (Keymash.addBindings initState [bindExactA, bindCatchAll]) true

/-- Dispatching `keydown "a"` (exactly bound). -/
def C5pressA : KeymashState × List Effect :=
  Keymash.handleKeyDown idEnv idEnv C5state { key := "a" }

/-- Dispatching `keydown "q"` (unbound). -/
def C5pressQ : KeymashState × List Effect :=
  Keymash.handleKeyDown idEnv idEnv C5state { key := "q" }

/-- C5: resolution tries the exact entry for the total mask first and
consults the `holdMask | ANY_PRESS` catch-all key only when that misses;
with both an exact `press.a` binding and a catch-all registered, pressing
"a" fires the exact handler (11) and never the catch-all (12), while
pressing the unbound "q" fires the catch-all exactly once. -/
theorem C5_catchall_precedence :
    (∀ l hm tm b, mapGet l (toString tm) = some b →
      Keymash.resolveBinding l hm tm = some b) ∧
    (∀ l hm tm, mapGet l (toString tm) = none →
      Keymash.resolveBinding l hm tm = mapGet l (toString (hm ||| ANY_PRESS))) ∧
    (Effect.invoke 11 ∈ C5pressA.2 ∧ Effect.invoke 12 ∉ C5pressA.2 ∧
      countFires C5pressA.2 = 1) ∧
    (Effect.invoke 12 ∈ C5pressQ.2 ∧ Effect.invoke 11 ∉ C5pressQ.2 ∧
      countFires C5pressQ.2 = 1) := by
  refine ⟨?_, ?_, ⟨by decide, by decide, by decide⟩, ⟨by decide, by decide, by decide⟩⟩
  · intro l hm tm b hb
    unfold Keymash.resolveBinding
    rw [hb]
  · intro l hm tm hb
    unfold Keymash.resolveBinding
    rw [hb]

/-- Witness for `C5_catchall_precedence`: the exact-lookup hypothesis
discharged on the concrete C5 lookup map. -/
theorem C5_catchall_precedence_witness :
    Keymash.resolveBinding C5state.lookup 0 (pressTable "a") = some bindExactA :=
  C5_catchall_precedence.1 C5state.lookup 0 (pressTable "a") bindExactA (by decide)

/-! ## C6 — unbinding removes all exploded entries -/

theorem digitChar_inj (a b : Nat) (ha : a < 10) (hb : b < 10)
    (h : Nat.digitChar a = Nat.digitChar b) : a = b := by
  interval_cases a <;> interval_cases b <;> first | rfl | (exfalso; revert h; decide)

theorem toDigitsCore_append (base : Nat) :
    ∀ f n ds, Nat.toDigitsCore base f n ds = Nat.toDigitsCore base f n [] ++ ds := by
  intro f
  induction f with
  | zero => intro n ds; rfl
  | succ f ih =>
    intro n ds
    simp only [Nat.toDigitsCore]
    by_cases h : n / base = 0
    · rw [if_pos h, if_pos h]
      rfl
    · rw [if_neg h, if_neg h]
      rw [ih (n / base) [Nat.digitChar (n % base)],
          ih (n / base) (Nat.digitChar (n % base) :: ds)]
      simp

theorem toDigitsCore_step (base f n : Nat) :
    Nat.toDigitsCore base (f + 1) n [] =
      (if n / base = 0 then [] else Nat.toDigitsCore base f (n / base) []) ++
        [Nat.digitChar (n % base)] := by
  simp only [Nat.toDigitsCore]
  by_cases h : n / base = 0
  · rw [if_pos h, if_pos h]
    rfl
  · rw [if_neg h, if_neg h]
    exact toDigitsCore_append base f (n / base) [Nat.digitChar (n % base)]

theorem toDigitsCore_fuel_eq :
    ∀ n f1 f2, n < f1 → n < f2 →
      Nat.toDigitsCore 10 f1 n [] = Nat.toDigitsCore 10 f2 n [] := by
  intro n
  induction n using Nat.strong_induction_on with
  | _ n ih =>
    intro f1 f2 h1 h2
    cases f1 with
    | zero => omega
    | succ g1 =>
      cases f2 with
      | zero => omega
      | succ g2 =>
        rw [toDigitsCore_step, toDigitsCore_step]
        by_cases h : n / 10 = 0
        · rw [if_pos h, if_pos h]
        · rw [if_neg h, if_neg h]
          have hlt : n / 10 < n := Nat.div_lt_self (by omega) (by omega)
          rw [ih (n / 10) hlt g1 g2 (by omega) (by omega)]

theorem toDigitsCore_pos_ne_nil (f n : Nat) (hf : 0 < f) :
    Nat.toDigitsCore 10 f n [] ≠ [] := by
  cases f with
  | zero => omega
  | succ g =>
    rw [toDigitsCore_step]
    simp

theorem toDigits_ten_inj :
    ∀ n m, Nat.toDigits 10 n = Nat.toDigits 10 m → n = m := by
  intro n
  induction n using Nat.strong_induction_on with
  | _ n ih =>
    intro m h
    unfold Nat.toDigits at h
    rw [toDigitsCore_step, toDigitsCore_step] at h
    have hmod : n % 10 = m % 10 := by
      have h10 : n % 10 < 10 := Nat.mod_lt _ (by omega)
      have h10m : m % 10 < 10 := Nat.mod_lt _ (by omega)
      have := (List.append_inj' h (by simp)).2
      simp at this
      exact digitChar_inj _ _ h10 h10m this
    have hpre := (List.append_inj' h (by simp)).1
    by_cases hn : n / 10 = 0
    · by_cases hm : m / 10 = 0
      · omega
      · rw [if_pos hn, if_neg hm] at hpre
        exact absurd hpre.symm (toDigitsCore_pos_ne_nil m (m / 10) (by omega))
    · by_cases hm : m / 10 = 0
      · rw [if_neg hn, if_pos hm] at hpre
        exact absurd hpre (toDigitsCore_pos_ne_nil n (n / 10) (by omega))
      · rw [if_neg hn, if_neg hm] at hpre
        have hlt : n / 10 < n := Nat.div_lt_self (by omega) (by omega)
        have hfe1 : Nat.toDigitsCore 10 n (n / 10) [] = Nat.toDigits 10 (n / 10) := by
          unfold Nat.toDigits
          exact toDigitsCore_fuel_eq (n / 10) n (n / 10 + 1) (by omega) (by omega)
        have hfe2 : Nat.toDigitsCore 10 m (m / 10) [] = Nat.toDigits 10 (m / 10) := by
          unfold Nat.toDigits
          have hmlt : m / 10 < m := Nat.div_lt_self (by omega) (by omega)
          exact toDigitsCore_fuel_eq (m / 10) m (m / 10 + 1) (by omega) (by omega)
        rw [hfe1, hfe2] at hpre
        have := ih (n / 10) hlt (m / 10) hpre
        omega

/-- Decimal stringification of chord values (`combo.toString()`) is
injective, so comparing stringified combos is comparing the combos. -/
theorem natToString_inj (n m : Nat) (h : toString n = toString m) : n = m := by
  have hr : Nat.repr n = Nat.repr m := h
  unfold Nat.repr at hr
  have : Nat.toDigits 10 n = Nat.toDigits 10 m := by
    have := congrArg String.data hr
    simpa [List.asString] using this
  exact toDigits_ten_inj n m this

theorem mapGet_cons (e : String × Binding) (m : List (String × Binding)) (k : String) :
    mapGet (e :: m) k = if e.1 == k then some e.2 else mapGet m k := by
  cases hk : e.1 == k <;> simp [mapGet, List.find?_cons, hk]

theorem mapGet_insertAll (entries : List (String × Binding)) :
    ∀ m k v, mapGet (entries.foldl (fun m kb => mapSet m kb.1 kb.2) m) k = some v →
      (k, v) ∈ entries ∨ mapGet m k = some v := by
  induction entries with
  | nil => intro m k v h; exact Or.inr h
  | cons e rest ih =>
    intro m k v h
    simp only [List.foldl_cons] at h
    rcases ih _ _ _ h with hmem | hget
    · exact Or.inl (List.mem_cons_of_mem _ hmem)
    · unfold mapSet at hget
      rw [mapGet_cons] at hget
      by_cases hk : (e.1, e.2).1 == k
      · rw [if_pos hk] at hget
        simp at hget hk
        subst hget
        subst hk
        simp
      · rw [if_neg hk] at hget
        exact Or.inr hget

theorem mapGet_buildFold_mem (bs : List Binding) :
    ∀ m k v,
      mapGet (bs.foldl
        (fun m b => (explodeBinding b).foldl (fun m kb => mapSet m kb.1 kb.2) m) m) k = some v →
      (∃ b2 ∈ bs, (k, v) ∈ explodeBinding b2) ∨ mapGet m k = some v := by
  induction bs with
  | nil => intro m k v h; exact Or.inr h
  | cons b rest ih =>
    intro m k v h
    simp only [List.foldl_cons] at h
    rcases ih _ _ _ h with ⟨b2, hb2, hkv⟩ | hget
    · exact Or.inl ⟨b2, List.mem_cons_of_mem _ hb2, hkv⟩
    · rcases mapGet_insertAll _ _ _ _ hget with hmem | hget2
      · exact Or.inl ⟨b, List.mem_cons_self _ _, hmem⟩
      · exact Or.inr hget2

theorem mapGet_rebuildLookup_none (bs : List Binding) (k : String)
    (h : ∀ b2 ∈ bs, ∀ p ∈ explodeBinding b2, p.1 ≠ k) :
    mapGet (Keymash.rebuildLookup bs) k = none := by
  rcases hg : mapGet (Keymash.rebuildLookup bs) k with _ | v
  · rfl
  · exfalso
    unfold Keymash.rebuildLookup at hg
    rcases mapGet_buildFold_mem bs [] k v hg with ⟨b2, hb2, hkv⟩ | hget
    · exact h b2 hb2 (k, v) hkv rfl
    · simp [mapGet] at hget

/-- The C3 scenario instance after `unbind(press.a | press.b)`. -/
def C6state : KeymashState := Keymash.unbind C3state [bindAB.combo]

/-- C6: `unbind(c)` removes every binding whose original combo equals `c`;
after the rebuild, any key no remaining binding explodes to resolves to
nothing (concretely, after unbinding the `press.a | press.b` binding both
exploded keys return `none` and the binding list is empty); and unbinding
a combo that was never bound throws nothing and leaves the binding list
unchanged and the lookup map pointwise unchanged (the hypothesis that the
stored lookup agrees with `rebuildLookup` of the stored bindings is the
code's own maintained relationship between `_lookup` and `bindings`). -/
theorem C6_unbind (s : KeymashState) (c : Nat) :
    (∀ b : Binding, b.combo = c → b ∉ (Keymash.unbind s [c]).bindings) ∧
    (∀ k, (∀ b2 ∈ (Keymash.unbind s [c]).bindings, ∀ p ∈ explodeBinding b2, p.1 ≠ k) →
      mapGet (Keymash.unbind s [c]).lookup k = none) ∧
    ((∀ b2 ∈ s.bindings, b2.combo ≠ c) →
      (∀ k2, mapGet s.lookup k2 = mapGet (Keymash.rebuildLookup s.bindings) k2) →
      (Keymash.unbind s [c]).bindings = s.bindings ∧
      ∀ k2, mapGet (Keymash.unbind s [c]).lookup k2 = mapGet s.lookup k2) ∧
    C6state.bindings = [] ∧
    mapGet C6state.lookup (toString (pressTable "a")) = none ∧
    mapGet C6state.lookup (toString (pressTable "b")) = none := by
  refine ⟨?_, ?_, ?_, by decide, by decide, by decide⟩
  · intro b hbc hmem
    unfold Keymash.unbind at hmem
    simp only [List.mem_filter] at hmem
    have := hmem.2
    rw [hbc] at this
    simp at this
  · intro k hcov
    exact mapGet_rebuildLookup_none _ k hcov
  · intro hnb hcons
    have hfil : s.bindings.filter
        (fun b => !(([c].map toString).contains (toString b.combo))) = s.bindings := by
      apply List.filter_eq_self.mpr
      intro b hb
      have hne := hnb b hb
      simp only [List.map, List.contains_cons, List.contains_nil, Bool.or_false]
      have : toString b.combo ≠ toString c := by
        intro hh
        exact hne (natToString_inj _ _ hh)
      simp [this]
    constructor
    · show s.bindings.filter _ = s.bindings
      exact hfil
    · intro k2
      show mapGet (Keymash.rebuildLookup (s.bindings.filter _)) k2 = _
      rw [hfil]
      exact (hcons k2).symm

/-- Witness for `C6_unbind`: unbinding the never-bound `press.q` leaves the
C3 scenario's binding list unchanged. -/
theorem C6_unbind_witness :
    (Keymash.unbind C3state [pressTable "q"]).bindings = C3state.bindings :=
  ((C6_unbind C3state (pressTable "q")).2.2.1 (by decide) (fun k2 => rfl)).1

/-! ## C7 — inactive instances hold no keys -/

/-- The invariant: an inactive instance has an empty held-key set. -/
def InactiveEmpty (s : KeymashState) : Prop := s.active = false → s.activeKeys = []

/-- The reachable instance states: every public operation and event
handler, starting from the fresh instance, with handler side effects drawn
from the environments `benv`/`senv`. -/
inductive Reachable (benv senv : Nat → KeymashState → KeymashState) : KeymashState → Prop
  | init : Reachable benv senv initState
  | addBindings {s : KeymashState} (bs : List Binding) :
      Reachable benv senv s → Reachable benv senv (Keymash.addBindings s bs)
  | unbind {s : KeymashState} (cs : List Nat) :
      Reachable benv senv s → Reachable benv senv (Keymash.unbind s cs)
  | setActive {s : KeymashState} (a : Bool) :
      Reachable benv senv s → Reachable benv senv (Keymash.setActive s a)
  | seqReg {s : KeymashState} (t : String) (h : Nat) (to? : Option Nat) :
      Reachable benv senv s → Reachable benv senv (Keymash.sequence s t h to?)
  | seqUnsub {s : KeymashState} (id : Nat) :
      Reachable benv senv s → Reachable benv senv (Keymash.unsubscribeSequence s id)
  | keydown {s : KeymashState} (e : KeyEvent) :
      Reachable benv senv s → Reachable benv senv (Keymash.handleKeyDown benv senv s e).1
  | keyup {s : KeymashState} (e : KeyEvent) :
      Reachable benv senv s → Reachable benv senv (Keymash.handleKeyUp s e).1
  | blurEv {s : KeymashState} :
      Reachable benv senv s → Reachable benv senv (Keymash.handleBlur s).1
  | destroy {s : KeymashState} :
      Reachable benv senv s → Reachable benv senv (Keymash.destroy s)

theorem inv_setActive (s : KeymashState) (a : Bool) (h : InactiveEmpty s) :
    InactiveEmpty (Keymash.setActive s a) := by
  unfold Keymash.setActive
  by_cases h1 : s.active = a
  · rw [if_pos h1]; exact h
  · rw [if_neg h1]
    cases a with
    | true => intro hf; simp at hf
    | false => intro _; rfl

theorem addBindings_active_activeKeys (bs : List Binding) :
    ∀ s : KeymashState, (Keymash.addBindings s bs).active = s.active ∧
      (Keymash.addBindings s bs).activeKeys = s.activeKeys := by
  induction bs with
  | nil => intro s; exact ⟨rfl, rfl⟩
  | cons b rest ih =>
    intro s
    unfold Keymash.addBindings at ih ⊢
    rw [List.foldl_cons]
    exact ih _

theorem inv_addBindings (s : KeymashState) (bs : List Binding) (h : InactiveEmpty s) :
    InactiveEmpty (Keymash.addBindings s bs) := by
  intro ha
  rcases addBindings_active_activeKeys bs s with ⟨h1, h2⟩
  rw [h2]
  exact h (h1 ▸ ha)

theorem inv_checkSequences (senv : Nat → KeymashState → KeymashState)
    (hsen : ∀ hid st, InactiveEmpty st → InactiveEmpty (senv hid st))
    (s : KeymashState) (key : String) (now : Nat) (h : InactiveEmpty s) :
    InactiveEmpty (Keymash.checkSequences senv s key now).1 := by
  unfold Keymash.checkSequences
  by_cases hlen : key.length ≠ 1
  · rw [if_pos hlen]; exact h
  · rw [if_neg hlen]
    rcases hf : ({ s with lastKeyTime := now } : KeymashState).sequences.find?
        (fun q => jsEndsWith (Keymash.bufferAfter s key now) q.sequence) with _ | q
    · simp only [hf]
      intro ha
      exact h ha
    · simp only [hf]
      exact hsen _ _ (fun ha => h ha)

theorem inv_guardAdd (t : KeymashState) (k : String) (h : InactiveEmpty t) :
    InactiveEmpty (if t.active then Keymash.addActiveKey t k else t) := by
  by_cases ha : t.active
  · rw [if_pos ha]
    intro hf
    unfold Keymash.addActiveKey at hf ⊢
    by_cases hc : t.activeKeys.contains k
    · rw [if_pos hc] at hf ⊢
      exact h hf
    · rw [if_neg hc] at hf ⊢
      simp at hf
      rw [ha] at hf
      cases hf
  · rw [if_neg ha]
    exact h

theorem inv_handleKeyDown (benv senv : Nat → KeymashState → KeymashState)
    (hben : ∀ hid st, InactiveEmpty st → InactiveEmpty (benv hid st))
    (hsen : ∀ hid st, InactiveEmpty st → InactiveEmpty (senv hid st))
    (s : KeymashState) (e : KeyEvent) (h : InactiveEmpty s) :
    InactiveEmpty (Keymash.handleKeyDown benv senv s e).1 := by
  unfold Keymash.handleKeyDown
  by_cases hsc : e.inScope = false
  · rw [if_pos hsc]; exact h
  · rw [if_neg hsc]
    rcases hm : maskBitPos e.key with _ | pb
    · exact h
    · simp only []
      have h1 := inv_checkSequences senv hsen s e.key e.time h
      set s1 := (Keymash.checkSequences senv s e.key e.time).1 with hs1
      by_cases hrep : s1.activeKeys.contains e.key
      · simp only [hrep, if_true]
        rcases hb : Keymash.resolveBinding s.lookup (holdMaskOf s.activeKeys)
            (holdMaskOf s.activeKeys ||| 2 ^ (pb + 256)) with _ | b
        · exact h1
        · by_cases hr : b.repeatFlag = some true
          · simp only [hr, if_pos]
            exact hben _ _ h1
          · simp only [if_neg hr]
            exact h1
      · simp only [hrep, if_false]
        rcases hb : Keymash.resolveBinding s.lookup (holdMaskOf s.activeKeys)
            (holdMaskOf s.activeKeys ||| 2 ^ (pb + 256)) with _ | b
        · exact inv_guardAdd s1 e.key h1
        · by_cases hd : (b.delay.getD 0) > 0
          · simp only [hd, if_true]
            exact inv_guardAdd s1 e.key h1
          · simp only [hd, if_false]
            exact inv_guardAdd (benv b.handler s1) e.key (hben _ _ h1)

theorem inv_unbind (s : KeymashState) (cs : List Nat) (h : InactiveEmpty s) :
    InactiveEmpty (Keymash.unbind s cs) :=
  fun ha => h ha

theorem inv_sequence (s : KeymashState) (t : String) (hid : Nat) (to? : Option Nat)
    (h : InactiveEmpty s) : InactiveEmpty (Keymash.sequence s t hid to?) := by
  unfold Keymash.sequence
  cases to? with
  | none => exact fun ha => h ha
  | some tv => exact fun ha => h ha

theorem inv_unsubscribeSequence (s : KeymashState) (id : Nat) (h : InactiveEmpty s) :
    InactiveEmpty (Keymash.unsubscribeSequence s id) :=
  fun ha => h ha

theorem inv_handleKeyUp (s : KeymashState) (e : KeyEvent) (h : InactiveEmpty s) :
    InactiveEmpty (Keymash.handleKeyUp s e).1 := by
  unfold Keymash.handleKeyUp
  by_cases hsc : e.inScope = false
  · rw [if_pos hsc]; exact h
  · rw [if_neg hsc]
    intro ha
    have := h ha
    simp only [this]
    rfl

theorem inv_handleBlur (s : KeymashState) :
    InactiveEmpty (Keymash.handleBlur s).1 :=
  fun _ => rfl

theorem inv_destroy (s : KeymashState) (h : InactiveEmpty s) :
    InactiveEmpty (Keymash.destroy s) := by
  intro ha
  have h1 := inv_setActive s false h
  exact h1 ha

/-- C7: provided every handler's effect on the instance preserves the
invariant (they act through the same public operations, which do), every
reachable state satisfies `InactiveEmpty`; deactivating an active instance
— directly or via `destroy` — leaves the held-key set empty.  The keydown
case covers a handler that deactivates its own instance mid-dispatch: the
final `addActiveKey` is guarded by a re-check of `_active`, so no phantom
held key remains. -/
theorem C7_inactive_empty (benv senv : Nat → KeymashState → KeymashState)
    (hben : ∀ hid st, InactiveEmpty st → InactiveEmpty (benv hid st))
    (hsen : ∀ hid st, InactiveEmpty st → InactiveEmpty (senv hid st)) :
    (∀ s : KeymashState, Reachable benv senv s → InactiveEmpty s) ∧
    (∀ s : KeymashState, s.active = true → (Keymash.setActive s false).activeKeys = []) ∧
    (∀ s : KeymashState, s.active = true → (Keymash.destroy s).activeKeys = []) := by
  refine ⟨?_, ?_, ?_⟩
  · intro s hr
    induction hr with
    | init => intro _; rfl
    | addBindings bs _ ih => exact inv_addBindings _ bs ih
    | unbind cs _ ih => exact inv_unbind _ cs ih
    | setActive a _ ih => exact inv_setActive _ a ih
    | seqReg t hid to? _ ih => exact inv_sequence _ t hid to? ih
    | seqUnsub id _ ih => exact inv_unsubscribeSequence _ id ih
    | keydown e _ ih => exact inv_handleKeyDown benv senv hben hsen _ e ih
    | keyup e _ ih => exact inv_handleKeyUp _ e ih
    | blurEv _ _ => exact inv_handleBlur _
    | destroy _ ih => exact inv_destroy _ ih
  · intro s ha
    unfold Keymash.setActive
    rw [if_neg (by simp [ha]), if_neg (by simp)]
  · intro s ha
    unfold Keymash.destroy Keymash.setActive
    rw [if_neg (by simp [ha]), if_neg (by simp)]

/-- A handler environment in which every handler deactivates its own
instance (the global/modal handoff pattern). -/
def deactEnv : Nat → KeymashState → KeymashState :=
  fun _ st => Keymash.setActive st false

/-- Witness for `C7_inactive_empty`: a keydown of "a" whose handler
deactivates the instance; the resulting reachable state satisfies the
invariant, and concretely ends inactive with no phantom held key. -/
theorem C7_inactive_empty_witness :
    InactiveEmpty
      (Keymash.handleKeyDown deactEnv deactEnv
        (Keymash.setActive (Keymash.addBindings initState [bindExactA]) true)
        { key := "a" }).1 ∧
    (Keymash.handleKeyDown deactEnv deactEnv
        (Keymash.setActive (Keymash.addBindings initState [bindExactA]) true)
        { key := "a" }).1.active = false ∧
    (Keymash.handleKeyDown deactEnv deactEnv
        (Keymash.setActive (Keymash.addBindings initState [bindExactA]) true)
        { key := "a" }).1.activeKeys = [] :=
  ⟨(C7_inactive_empty deactEnv deactEnv
      (fun _ st h => inv_setActive st false h)
      (fun _ st h => inv_setActive st false h)).1 _
    (Reachable.keydown { key := "a" }
      (Reachable.setActive true
        (Reachable.addBindings [bindExactA] Reachable.init))),
   by decide, by decide⟩

/-! ## C8 — first-match-wins sequence detection -/

theorem find?_first_match {α : Type} (p : α → Bool) :
    ∀ (l1 : List α) (q : α) (l2 : List α), p q = true → (∀ r ∈ l1, p r = false) →
      List.find? p (l1 ++ q :: l2) = some q := by
  intro l1
  induction l1 with
  | nil =>
    intro q l2 hq _
    simp [List.find?, hq]
  | cons a rest ih =>
    intro q l2 hq hall
    have ha : p a = false := hall a (List.mem_cons_self a rest)
    simp only [List.cons_append, List.find?, ha]
    exact ih q l2 hq (fun r hr => hall r (List.mem_cons_of_mem a hr))

/-- C8: a keydown whose key name is not a single character leaves the
detector state untouched and fires nothing; at most one sequence handler
fires per keystroke; and if `q` is the first registered sequence (in
registration order) that the updated buffer ends with, exactly `q` fires
with its matched text, the buffer is reset to empty before `q`'s handler
runs, and no later sequence is checked. -/
theorem C8_sequences (senv : Nat → KeymashState → KeymashState)
    (s : KeymashState) (key : String) (now : Nat) :
    (key.length ≠ 1 → Keymash.checkSequences senv s key now = (s, [])) ∧
    (Keymash.checkSequences senv s key now).2.length ≤ 1 ∧
    (∀ (l1 : List SequenceBinding) (q : SequenceBinding) (l2 : List SequenceBinding),
      s.sequences = l1 ++ q :: l2 →
      jsEndsWith (Keymash.bufferAfter s key now) q.sequence = true →
      (∀ r ∈ l1, jsEndsWith (Keymash.bufferAfter s key now) r.sequence = false) →
      key.length = 1 →
      Keymash.checkSequences senv s key now =
        (senv q.handler { s with lastKeyTime := now, sequenceBuffer := "" },
         [Effect.seqInvoke q.handler q.sequence])) := by
  refine ⟨?_, ?_, ?_⟩
  · intro hlen
    unfold Keymash.checkSequences
    rw [if_pos hlen]
  · unfold Keymash.checkSequences
    by_cases hlen : key.length ≠ 1
    · rw [if_pos hlen]; exact Nat.zero_le 1
    · rw [if_neg hlen]
      rcases hf : ({ s with lastKeyTime := now } : KeymashState).sequences.find?
          (fun q => jsEndsWith (Keymash.bufferAfter s key now) q.sequence) with _ | q <;>
        simp [hf]
  · intro l1 q l2 hsplit hq hall hlen
    unfold Keymash.checkSequences
    rw [if_neg (by omega)]
    have hfind : ({ s with lastKeyTime := now } : KeymashState).sequences.find?
        (fun r => jsEndsWith (Keymash.bufferAfter s key now) r.sequence) = some q := by
      show s.sequences.find? _ = some q
      rw [hsplit]
      exact find?_first_match _ l1 q l2 hq hall
    simp only [hfind]

/-- A detector state with three sequences, of which the second and third
both match after typing "b" onto buffer "a". -/
def C8demoState : KeymashState :=
  { initState with
    sequences := [⟨"xq", 21, 1⟩, ⟨"b", 22, 2⟩, ⟨"ab", 23, 3⟩],
    sequenceBuffer := "a", sequenceIdCounter := 3 }

/-- Witness for `C8_sequences`: only the earliest matching sequence
(handler 22) fires, even though "ab" (handler 23) also matches. -/
theorem C8_sequences_witness :
    Keymash.checkSequences idEnv C8demoState "b" 5 =
      ({ C8demoState with lastKeyTime := 5, sequenceBuffer := "" },
       [Effect.seqInvoke 22 "b"]) :=
  (C8_sequences idEnv C8demoState "b" 5).2.2 [⟨"xq", 21, 1⟩] ⟨"b", 22, 2⟩ [⟨"ab", 23, 3⟩]
    rfl (by decide) (by decide) rfl

/-! ## C9 — comboToText rendering -/

/-- The inverse map `BIT_TO_KEY_MAP` as populated at module load (lines
62-77): the `KEY_CODE_MAP` entries (distinct bits, so the longer-name
preference never rebinds a bit), then the printable ASCII characters 32-126
on the not-yet-assigned bits. -/
def BIT_TO_KEY_MAP (bit : Nat) : Option String :=
  match KEY_CODE_MAP_ENTRIES.find? (fun p => p.2 == bit) with
  | some p => some p.1
  | none => if 32 ≤ bit ∧ bit ≤ 126 then some (String.mk [Char.ofNat bit]) else none

/-- Models the fallback naming `BIT_TO_KEY_MAP.get(Number(i))` with default
"Key" followed by the bit number, from `comboToText`. -/
def keyNameForBit (i : Nat) : String :=
  (BIT_TO_KEY_MAP i).getD ("Key" ++ toString i)

/-- The `modifierOrder` array of `comboToText` (line 283). -/
def modifierOrder : List String := ["Control", "Shift", "Alt", "Meta"]

/-- Models `Array.prototype.indexOf`: first index or -1. -/
def jsIndexOfAux : List String → String → Nat → Int
  | [], _, _ => -1
  | x :: xs, a, i => if x = a then Int.ofNat i else jsIndexOfAux xs a (i + 1)

def jsIndexOf (l : List String) (a : String) : Int := jsIndexOfAux l a 0

/-- Lexicographic three-way comparison by character code. -/
def charListCompare : List Char → List Char → Int
  | [], [] => 0
  | [], _ :: _ => -1
  | _ :: _, [] => 1
  | a :: as, b :: bs =>
    if a.toNat < b.toNat then -1
    else if b.toNat < a.toNat then 1
    else charListCompare as bs

/-- Models `String.prototype.localeCompare` under the default collation on
the all-lowercase-ASCII names `BIT_TO_KEY_MAP` stores (on such strings the
default collation coincides with code-point order). -/
def localeCompare (a b : String) : Int := charListCompare a.data b.data

/-- The sort comparator of `comboToText` (lines 294-301). -/
def cmpKeys (a b : String) : Int :=
  let aIdx := jsIndexOf modifierOrder a
  let bIdx := jsIndexOf modifierOrder b
  if 0 ≤ aIdx ∧ 0 ≤ bIdx then aIdx - bIdx
  else if 0 ≤ aIdx then -1
  else if 0 ≤ bIdx then 1
  else localeCompare a b

/-- Stable insertion sort with the `cmpKeys` comparator, modelling
`Array.prototype.sort` (stable since ES2019; on the distinct names below
any comparator-respecting sort gives the same result). -/
def insertSorted (x : String) : List String → List String
  | [] => [x]
  | y :: ys => if cmpKeys y x ≤ 0 then y :: insertSorted x ys else x :: y :: ys

def sortKeys (l : List String) : List String :=
  l.foldl (fun acc x => insertSorted x acc) []

/-- Models `Array.prototype.join` with separator "+". -/
def joinPlus : List String → String
  | [] => ""
  | [x] => x
  | x :: y :: xs => x ++ "+" ++ joinPlus (y :: xs)

/-- Models `comboToText` (lines 277-314): hold-half names in bit order, sorted by
`cmpKeys`, then press-half names in bit order, joined by "+". -/
def comboToText (combo : Nat) : String :=
  let holdMask := combo &&& HOLD_RANGE_MASK
  let pressMask := (combo &&& PRESS_RANGE_MASK) >>> 256
  let holdKeys := ((List.range 256).filter (fun i => holdMask.testBit i)).map keyNameForBit
  let sorted := sortKeys holdKeys
  let pressKeys := ((List.range 256).filter (fun i => pressMask.testBit i)).map keyNameForBit
  joinPlus (sorted ++ pressKeys)

/-- C9, evaluation at the failing input: for the chord
`hold.shift + hold.alt + press.s` the code renders "alt+shift+s" — Alt
before Shift, violating the claimed canonical Control, Shift, Alt, Meta
order — because `BIT_TO_KEY_MAP` stores the lowercase names "shift"/"alt"
while `modifierOrder` lists capitalized "Control"/"Shift"/"Alt"/"Meta", so
`indexOf` is always -1 and the comparator falls through to alphabetical
order.  Likewise `hold.ctrl + press.s` renders "ctrl+s", not the
"Control+s" promised by the `getActiveBindings` doc comment. -/
theorem C9_comboToText_eval :
    comboToText (holdTable "shift" + holdTable "alt" + pressTable "s") = "alt+shift+s" ∧
    comboToText (holdTable "ctrl" + pressTable "s") = "ctrl+s" ∧
    jsIndexOf modifierOrder "shift" = -1 ∧ jsIndexOf modifierOrder "ctrl" = -1 ∧
    BIT_TO_KEY_MAP 2 = some "shift" ∧ BIT_TO_KEY_MAP 3 = some "alt" :=
  ⟨by decide, by decide, by decide, by decide, by decide, by decide⟩

/-! ## C10 — the instance-wide sequence timeout -/

theorem le_foldl_maxLen (l : List SequenceBinding) :
    ∀ acc : Nat, acc ≤ l.foldl (fun m q => max m q.sequence.length) acc := by
  induction l with
  | nil => intro acc; exact Nat.le_refl acc
  | cons q rest ih =>
    intro acc
    calc acc ≤ max acc q.sequence.length := Nat.le_max_left _ _
    _ ≤ _ := ih _

theorem jsToLower_length (s : String) : (jsToLower s).length = s.length := by
  cases s with
  | mk data =>
    show (List.map jsCharLower data).length = data.length
    exact List.length_map data jsCharLower

/-- Register "ab" (handler 31, no timeout) then "zz" (handler 32, timeout
5 ms) on a fresh instance. -/
def C10reg : KeymashState :=
  Keymash.sequence (Keymash.sequence initState "ab" 31 none) "zz" 32 (some 5)

/-- The detector state after typing "a" at time 0. -/
def C10afterA : KeymashState := (Keymash.checkSequences idEnv C10reg "a" 0).1

/-- C10: the sequence-reset timeout is one instance-wide field, initially
1000 ms: a registration with a `timeout` option overwrites it for the whole
instance, one without inherits the last value, and the idle-reset in the
detector is governed by that single field for every registered sequence.
Concretely, registering "zz" with timeout 5 after "ab" (registered under
the default) makes a 10 ms pause reset the buffer, so "ab" no longer
matches — while with the previous 1000 ms timeout it did. -/
theorem C10_shared_timeout (s : KeymashState) :
    initState.sequenceTimeout = 1000 ∧
    (∀ (text : String) (hid tv : Nat),
      (Keymash.sequence s text hid (some tv)).sequenceTimeout = tv) ∧
    (∀ (text : String) (hid : Nat),
      (Keymash.sequence s text hid none).sequenceTimeout = s.sequenceTimeout) ∧
    (∀ (t1 t2 : String) (h1 h2 t : Nat),
      (Keymash.sequence (Keymash.sequence s t1 h1 none) t2 h2 (some t)).sequenceTimeout = t ∧
      (Keymash.sequence (Keymash.sequence s t1 h1 none) t2 h2 (some t)).sequences =
        s.sequences ++ [{ sequence := jsToLower t1, handler := h1, id := s.sequenceIdCounter + 1 },
                        { sequence := jsToLower t2, handler := h2, id := s.sequenceIdCounter + 2 }]) ∧
    (∀ (key : String) (now : Nat), key.length = 1 →
      now - s.lastKeyTime > s.sequenceTimeout →
      Keymash.bufferAfter s key now = jsToLower key) ∧
    C10reg.sequenceTimeout = 5 ∧
    (Keymash.checkSequences idEnv C10afterA "b" 10).2 = [] ∧
    (Keymash.checkSequences idEnv { C10afterA with sequenceTimeout := 1000 } "b" 10).2 =
      [Effect.seqInvoke 31 "ab"] := by
  refine ⟨rfl, fun text hid tv => rfl, fun text hid => rfl, ?_, ?_,
    by decide, by decide, by decide⟩
  · intro t1 t2 h1 h2 t
    constructor
    · rfl
    · show (s.sequences ++ [_]) ++ [_] = _
      rw [List.append_assoc]
      rfl
  · intro key now hk hgt
    unfold Keymash.bufferAfter
    rw [if_pos hgt]
    have hlen1 : ("" ++ jsToLower key).length = 1 := by
      rw [show ("" ++ jsToLower key) = jsToLower key from rfl, jsToLower_length key]
      exact hk
    have hmax : 50 ≤ s.sequences.foldl (fun m q => max m q.sequence.length) 50 :=
      le_foldl_maxLen s.sequences 50
    rw [if_neg (by omega)]
    rfl

/-- Witness for `C10_shared_timeout`: the idle-reset clause applied to the
concrete post-"a" state, whose timeout the later registration set to 5. -/
theorem C10_shared_timeout_witness :
    Keymash.bufferAfter C10afterA "b" 10 = "b" :=
  (C10_shared_timeout C10afterA).2.2.2.2.1 "b" 10 rfl (by decide)
